import Mathlib

/-!
Verification of the section-decoration pipeline of `src/scripts/scripts.js`
(client-side page decoration for a content-managed site).

The development shallowly embeds the relevant functions of `scripts.js`:
the child grouper (`groupChildren`), the colour-scheme analyser
(`parseColor`, `getRelativeLuminance`, `getColorScheme`, `setColorScheme`),
the section-metadata interpreter (`getSectionMetadata`, `handleBackground`,
`handleSectionMetadata` and its helpers), and the link decorator
(`decorateHash`, `localizeUrl`, `decorateLink`, `decorateLinks`).

DOM elements are modelled by plain records holding exactly the fields the
embedded code reads or writes (tag name, class list, inline background,
dataset, children).  JavaScript strings are Lean `String`s; the JS string
operations used by the source (`includes`, one-occurrence `replace`,
`startsWith`, `endsWith`) are implemented below over `List Char`.
Browser built-ins that the source merely calls (`getComputedStyle`,
the WHATWG `URL` constructor) are treated as inputs: functions receive the
computed-background string, respectively the parsed URL record, as an
argument.
-/

set_option maxHeartbeats 1000000

namespace Xwalk

/-! ## JavaScript string primitives

`isPrefixOfL p s` is `p` being a prefix of `s`; `containsSubL`/`containsSubS`
model `String.prototype.includes`; `replaceFirstL`/`replaceFirstS` model
`String.prototype.replace` with a string pattern, which replaces only the
first occurrence; `startsWithS`/`endsWithS` model `startsWith`/`endsWith`. -/

def isPrefixOfL : List Char → List Char → Bool
  | [], _ => true
  | _ :: _, [] => false
  | p :: ps, c :: cs => p == c && isPrefixOfL ps cs

def containsSubL (pat : List Char) : List Char → Bool
  | [] => isPrefixOfL pat []
  | c :: cs => isPrefixOfL pat (c :: cs) || containsSubL pat cs

def replaceFirstL (pat rep : List Char) : List Char → List Char
  | [] => if isPrefixOfL pat [] then rep else []
  | c :: cs =>
    if isPrefixOfL pat (c :: cs) then rep ++ (c :: cs).drop pat.length
    else c :: replaceFirstL pat rep cs

def containsSubS (s pat : String) : Bool := containsSubL pat.data s.data

def replaceFirstS (s pat rep : String) : String :=
  String.mk (replaceFirstL pat.data rep.data s.data)

def startsWithS (s pat : String) : Bool := isPrefixOfL pat.data s.data

def endsWithS (s pat : String) : Bool :=
  isPrefixOfL pat.data.reverse s.data.reverse

/-- `classList.add` adds a class token unless it is already present. -/
def addClass (l : List String) (c : String) : List String :=
  if l.contains c then l else l ++ [c]

/-- `classList.add(a, b, ...)` with several tokens. -/
def addClasses (l : List String) (cs : List String) : List String :=
  cs.foldl addClass l

/-- `classList.remove` removes every occurrence of a class token. -/
def removeClass (l : List String) (c : String) : List String :=
  l.filter (fun x => x ≠ c)

/-! ## Child Grouper (`groupChildren`, scripts.js lines 78–113)

A direct child of a section is modelled by its tag name (upper-case, as
`Element.tagName` reports it) and its class list; `className` is truthy
exactly when the class list is non-empty. -/

structure ChildElem where
  tag : String
  classes : List String
deriving DecidableEq, Repr

structure GroupElem where
  groupClass : String
  children : List ChildElem
deriving DecidableEq, Repr

/-- `child.tagName === 'DIV' && child.className`: the test used for
`hasBlocks` in `groupChildren`. -/
def hasBlocksTest (c : ChildElem) : Bool :=
  c.tag == "DIV" && !c.classes.isEmpty

/-- `child.tagName === 'DIV'`: the classification used inside the grouping
loop of `groupChildren`. -/
def isDivTag (c : ChildElem) : Bool := c.tag == "DIV"

def groupClassOf (b : Bool) : String :=
  if b then "block-content" else "default-content"

/-- The `for (const child of children)` loop of `groupChildren`, with the
current (last, still-growing) group as explicit state.  A child is appended
to the current group when `currentGroup.classList.contains('block-content')`
agrees with `child.tagName === 'DIV'`; otherwise a new group is started. -/
def groupLoop (cur : GroupElem) : List ChildElem → List GroupElem
  | [] => [cur]
  | c :: cs =>
    if (cur.groupClass == "block-content") == isDivTag c then
      groupLoop ⟨cur.groupClass, cur.children ++ [c]⟩ cs
    else
      cur :: groupLoop ⟨groupClassOf (isDivTag c), [c]⟩ cs

/-- `groupChildren(section)` (lines 78–113): the argument is the list of the
section's direct children in document order (`:scope > *`); children whose
class list contains `section-metadata` are filtered out first. -/
def groupChildren (allChildren : List ChildElem) : List GroupElem :=
  let children := allChildren.filter (fun c => !(c.classes.contains "section-metadata"))
  match children with
  | [] => []
  | c :: cs =>
    if !((c :: cs).any hasBlocksTest) then [⟨"default-content", c :: cs⟩]
    else groupLoop ⟨groupClassOf (isDivTag c), [c]⟩ cs

/-- Specification-side predicate: the spec's "block-like" child, "a generic
container element carrying at least one class name". -/
def specBlockLike (c : ChildElem) : Bool :=
  c.tag == "DIV" && !c.classes.isEmpty

/-- Specification-side count of classification transitions of `p` along a
list of children in document order. -/
def transitions (p : ChildElem → Bool) : List ChildElem → Nat
  | [] => 0
  | [_] => 0
  | a :: b :: t => (if p a == p b then 0 else 1) + transitions p (b :: t)

/-- Transitions relative to a starting classification `b`. -/
def changesFrom (b : Bool) : List ChildElem → Nat
  | [] => 0
  | c :: cs => (if isDivTag c == b then 0 else 1) + changesFrom (isDivTag c) cs

/-! ## Colour/Background Analyzer (`parseColor`, `getRelativeLuminance`,
`getColorScheme`, `setColorScheme`, scripts.js lines 121–170)

`parseColor` runs the regex `/rgb\((\d+),\s*(\d+),\s*(\d+)\)/` over the
computed background string and returns the three decimal captures.  The
regex is deterministic (each `\d+`/`\s*` is followed by a literal that can
never extend the repeated class), so maximal munch below is exactly its
semantics; the scan tries every start position left to right, as
`String.prototype.match` does. -/

/-- `\s` whitespace class (the members that can occur in computed styles). -/
def isWsChar (c : Char) : Bool :=
  c == ' ' || c == '\t' || c == '\n' || c == '\r' || c == '\x0b' || c == '\x0c'

/-- `\d+` followed by `parseInt(-, 10)`: parse a non-empty run of decimal
digits, returning its value and the rest of the input. -/
def takeDigits (cs : List Char) : Option (Nat × List Char) :=
  let ds := cs.takeWhile Char.isDigit
  if ds.isEmpty then none
  else some (ds.foldl (fun n c => n * 10 + (c.toNat - 48)) 0, cs.drop ds.length)

def expectChar (c : Char) : List Char → Option (List Char)
  | x :: xs => if x == c then some xs else none
  | [] => none

def stripPfxL : List Char → List Char → Option (List Char)
  | [], cs => some cs
  | _ :: _, [] => none
  | p :: ps, c :: cs => if c == p then stripPfxL ps cs else none

/-- Try to match `rgb\((\d+),\s*(\d+),\s*(\d+)\)` at the head of the input. -/
def matchRgbAt (cs : List Char) : Option (Nat × Nat × Nat) := do
  let rest ← stripPfxL "rgb(".data cs
  let (r, rest) ← takeDigits rest
  let rest ← expectChar ',' rest
  let rest := rest.dropWhile isWsChar
  let (g, rest) ← takeDigits rest
  let rest ← expectChar ',' rest
  let rest := rest.dropWhile isWsChar
  let (b, rest) ← takeDigits rest
  let _ ← expectChar ')' rest
  some (r, g, b)

def findRgb : List Char → Option (Nat × Nat × Nat)
  | [] => none
  | c :: cs =>
    match matchRgbAt (c :: cs) with
    | some v => some v
    | none => findRgb cs

/-- `parseColor` (lines 121–132): extract `r, g, b` from the computed
background string, or `null` when the regex does not match.  (The source
reads `getComputedStyle(section).background`; the computed string is the
argument here.) -/
def parseColor (computedBg : String) : Option (Nat × Nat × Nat) :=
  findRgb computedBg.data

/-- Per-channel sRGB gamma correction (lines 141–143).  The JavaScript
number arithmetic is modelled over the reals; `**` is `Real.rpow`. -/
noncomputable def srgbLinear (x : ℝ) : ℝ :=
  if x ≤ 0.03928 then x / 12.92 else ((x + 0.055) / 1.055) ^ (2.4 : ℝ)

/-- `getRelativeLuminance` (lines 134–147). -/
noncomputable def getRelativeLuminance (r g b : ℕ) : ℝ :=
  0.2126 * srgbLinear ((r : ℝ) / 255) + 0.7152 * srgbLinear ((g : ℝ) / 255)
    + 0.0722 * srgbLinear ((b : ℝ) / 255)

/-- `getColorScheme` (lines 155–160), on the computed background string. -/
noncomputable def getColorScheme (computedBg : String) : Option String :=
  match parseColor computedBg with
  | none => none
  | some (r, g, b) =>
    some (if getRelativeLuminance r g b > 0.5 then "light-scheme" else "dark-scheme")

/-! ## Section model for the metadata interpreter

The metadata interpreter mutates the enclosing section, its direct children
(scheme classes, `block-content` properties) and the direct children of the
`block-content` wrappers (scheme classes from `background-block`) — it never
reaches deeper, so a two-level record of the section suffices.  `bgImgs`
records the responsive background pictures prepended by
`handleBackgroundImages` as their (desktop URL, mobile URL) pair, newest
first. -/

structure ChildNode where
  tag : String
  classes : List String
  styleBg : Option String
  dataset : List (String × String)
  grandClasses : List (List String)
  bgImgs : List (Option String × Option String)
deriving DecidableEq, Repr

structure SectionNode where
  classes : List String
  styleBg : Option String
  dataset : List (String × String)
  children : List ChildNode
  bgImgs : List (Option String × Option String)
deriving DecidableEq, Repr

/-- Replace any prior scheme class and add the derived one — the body of the
`forEach` in `setColorScheme` (lines 165–169):
`el.classList.remove('light-scheme', 'dark-scheme'); el.classList.add(scheme)`. -/
def applyScheme (scheme : String) (l : List String) : List String :=
  addClass (removeClass (removeClass l "light-scheme") "dark-scheme") scheme

/-- `setColorScheme` (lines 162–170) on a section: derive the scheme from
the computed background and rewrite the scheme class of every direct child;
no scheme means no change. -/
noncomputable def setColorScheme (computedBg : String) (sec : SectionNode) : SectionNode :=
  match getColorScheme computedBg with
  | none => sec
  | some scheme =>
    { sec with children := sec.children.map (fun c => { c with classes := applyScheme scheme c.classes }) }

/-- `setColorScheme` applied to a `block-content` wrapper (its direct
children are the `grandClasses` entries of the `ChildNode`). -/
noncomputable def setColorSchemeBlock (computedBg : String) (c : ChildNode) : ChildNode :=
  match getColorScheme computedBg with
  | none => c
  | some scheme =>
    { c with grandClasses := c.grandClasses.map (applyScheme scheme) }

/-- The background style string computed by `handleBackground` (lines
253–256): `color-token*` values become `var(--color*)` via a
first-occurrence `replace`, anything else is used verbatim. -/
def resolveBgStyle (color : String) : String :=
  if startsWithS color "color-token" then
    "var(" ++ replaceFirstS color "color-token" "--color" ++ ")"
  else color

/-- `handleBackground` (lines 250–259) on the section.  `text` is
`background.text`; `computedBg` is what `getComputedStyle` reports for the
section when `setColorScheme` runs (after the inline style was set). -/
noncomputable def handleBackground (text : String) (computedBg : String)
    (sec : SectionNode) : SectionNode :=
  if text = "" then sec
  else setColorScheme computedBg { sec with styleBg := some (resolveBgStyle text) }

/-- `handleBackground` applied to a `block-content` wrapper (the
`background-block` path of `handleSectionMetadata`). -/
noncomputable def handleBackgroundBlock (text : String) (computedBg : String)
    (c : ChildNode) : ChildNode :=
  if text = "" then c
  else setColorSchemeBlock computedBg { c with styleBg := some (resolveBgStyle text) }

/-! ## Section metadata parsing (`getSectionMetadata`, lines 276–284) -/

/-- A metadata cell: its trimmed-to-be text content, and the `src` of the
first `img` inside it, if any (what `extractImageUrl` reads). -/
structure Cell where
  textContent : String
  imgSrc : Option String
deriving DecidableEq, Repr

/-- The value stored per metadata key: the content cell and its
lower-cased, trimmed text (`{ content, text }` in the source). -/
abbrev MetaVal := Cell × String

/-- JavaScript object property assignment on string keys: an existing key
keeps its (first-insertion) position and gets the new value, a new key is
appended.  Models the `rdx[key] = { content, text }` accumulator object. -/
def objSet {A : Type} : List (String × A) → String → A → List (String × A)
  | [], k, v => [(k, v)]
  | p :: t, k, v => if p.1 == k then (k, v) :: t else p :: objSet t k v

/-- Property lookup on the JavaScript-object model. -/
def objGet {A : Type} (m : List (String × A)) (k : String) : Option A :=
  (m.find? (fun p => p.1 == k)).map (·.2)

/-- One row of the reducer in `getSectionMetadata`: rows with at least two
cells yield `(key, { content, text })`, where the key is the first cell's
trimmed, lower-cased text and must be non-empty (`if (key && content)`). -/
def rowEntry (row : List Cell) : Option (String × MetaVal) :=
  match row with
  | c0 :: c1 :: _ =>
    let key := c0.textContent.trim.toLower
    if key ≠ "" then some (key, (c1, c1.textContent.trim.toLower)) else none
  | _ => none

/-- `getSectionMetadata` (lines 276–284): reduce the metadata element's
rows into a string-keyed object. -/
def getSectionMetadata (rows : List (List Cell)) : List (String × MetaVal) :=
  rows.foldl
    (fun rdx row =>
      match rowEntry row with
      | some (k, v) => objSet rdx k v
      | none => rdx)
    []

/-- Specification-side reading of "last row wins": the value of the last
qualifying two-cell row carrying the key. -/
def lastEntry (key : String) (rows : List (List Cell)) : Option MetaVal :=
  rows.reverse.findSome? (fun row =>
    match rowEntry row with
    | some (k, v) => if k == key then some v else none
    | none => none)

/-! ## The metadata interpreter (`handleSectionMetadata`, lines 291–364) -/

/-- `handleStyle` (lines 261–264): split the value on `', '`, replace the
spaces of each token with hyphens, add the tokens as classes. -/
def handleStyle (text : String) (sec : SectionNode) : SectionNode :=
  { sec with classes := addClasses sec.classes ((text.splitOn ", ").map (fun st => st.replace " " "-")) }

/-- `handleLayout` (lines 266–274): value `"0"` is a no-op; `grid` also adds
a bare `grid` class; always adds `<type>-<value>`. -/
def handleLayout (text : String) (typ : String) (sec : SectionNode) : SectionNode :=
  if text = "0" then sec
  else
    let sec1 := if typ = "grid" then { sec with classes := addClass sec.classes "grid" } else sec
    { sec1 with classes := addClass sec1.classes (typ ++ "-" ++ text) }

/-- Modelled from the spec: `toCamelCase` is imported from `aem.js`, which
is not among the sources; §4.2 of the spec says unknown metadata keys are
stored "as a data attribute on the section, attribute name camel-cased from
the key", so hyphen-separated parts after the first are capitalised. -/
def toCamelCase (s : String) : String :=
  match s.splitOn "-" with
  | [] => s
  | h :: t => h ++ String.join (t.map String.capitalize)

/-- `extractImageUrl` (lines 202–205): the `src` of the first `img` inside
the metadata cell, or `null`. -/
def extractImageUrl (content : Cell) : Option String := content.imgSrc

/-- `handleBackgroundImages` (lines 213–248) on the section: no desktop URL
means no picture at all; otherwise the section gains the `has-bg-images`
class and the responsive picture is prepended (recorded as the
(desktop, mobile) URL pair). -/
def handleBackgroundImages (desktopUrl mobileUrl : Option String)
    (sec : SectionNode) : SectionNode :=
  match desktopUrl with
  | none => sec
  | some _ =>
    { sec with
      classes := addClass sec.classes "has-bg-images",
      bgImgs := (desktopUrl, mobileUrl) :: sec.bgImgs }

/-- `handleBackgroundImages` applied to a `block-content` wrapper. -/
def handleBackgroundImagesBlock (desktopUrl mobileUrl : Option String)
    (c : ChildNode) : ChildNode :=
  match desktopUrl with
  | none => c
  | some _ =>
    { c with
      classes := addClass c.classes "has-bg-images",
      bgImgs := (desktopUrl, mobileUrl) :: c.bgImgs }

/-- The `specialKeys` list (line 305). -/
def specialKeys : List String :=
  ["style", "grid", "gap", "spacing", "container", "background-image",
   "background-image-mobile", "background", "background-block",
   "background-block-image", "background-block-image-mobile",
   "object-fit-block", "object-position-block"]

/-- `:scope > div.block-content`: the selector for the block-content
wrappers among the section's direct children (line 327). -/
def isBlockContent (c : ChildNode) : Bool :=
  c.tag == "DIV" && c.classes.contains "block-content"

/-- Run a metadata-driven effect `f` when the key's `text` is truthy
(non-empty): the `if (metadata.key?.text)` guards of lines 297–302. -/
def onText (md : List (String × MetaVal)) (key : String)
    (f : String → SectionNode → SectionNode) (sec : SectionNode) : SectionNode :=
  match objGet md key with
  | some v => if v.2 ≠ "" then f v.2 sec else sec
  | none => sec

/-- The body of `handleSectionMetadata` once the enclosing section was
found (lines 294–363).  `computedSec` and `computedBlock` stand for the
computed background `getComputedStyle` reports for the section,
respectively for a block-content wrapper, when `setColorScheme` runs. -/
noncomputable def applyMeta (rows : List (List Cell))
    (computedSec computedBlock : String) (sec0 : SectionNode) : SectionNode :=
  let md := getSectionMetadata rows
  -- special cases for the section (lines 297–302)
  let sec1 := onText md "style" handleStyle sec0
  let sec2 := onText md "grid" (fun t => handleLayout t "grid") sec1
  let sec3 := onText md "gap" (fun t => handleLayout t "gap") sec2
  let sec4 := onText md "spacing" (fun t => handleLayout t "spacing") sec3
  let sec5 := onText md "container" (fun t => handleLayout t "container") sec4
  let sec6 := onText md "background" (fun t => handleBackground t computedSec) sec5
  -- catch-all data attributes (lines 308–312), in `Object.keys` order
  let sec7 := md.foldl
    (fun s kv =>
      if specialKeys.contains kv.1 then s
      else { s with dataset := objSet s.dataset (toCamelCase kv.1) kv.2.2 })
    sec6
  -- section background images (lines 315–324)
  let desktopBgImg := (objGet md "background-image").bind (fun v => extractImageUrl v.1)
  let mobileBgImg := (objGet md "background-image-mobile").bind (fun v => extractImageUrl v.1)
  let sec8 :=
    if desktopBgImg.isSome || mobileBgImg.isSome then
      handleBackgroundImages desktopBgImg mobileBgImg sec7
    else sec7
  -- block-content specific properties (lines 327–361)
  if (sec8.children.filter isBlockContent).isEmpty then sec8
  else
    let onBlocks (f : ChildNode → ChildNode) (s : SectionNode) : SectionNode :=
      { s with children := s.children.map (fun c => if isBlockContent c then f c else c) }
    let sec9 :=
      match objGet md "background-block" with
      | some v =>
        if v.2 ≠ "" then onBlocks (handleBackgroundBlock v.2 computedBlock) sec8 else sec8
      | none => sec8
    let desktopBlockBgImg := (objGet md "background-block-image").bind (fun v => extractImageUrl v.1)
    let mobileBlockBgImg :=
      (objGet md "background-block-image-mobile").bind (fun v => extractImageUrl v.1)
    let sec10 :=
      if desktopBlockBgImg.isSome || mobileBlockBgImg.isSome then
        onBlocks (handleBackgroundImagesBlock desktopBlockBgImg mobileBlockBgImg) sec9
      else sec9
    let sec11 :=
      match objGet md "object-fit-block" with
      | some v =>
        if v.2 ≠ "" then
          onBlocks (fun c => { c with dataset := objSet c.dataset "objectFit" v.2 }) sec10
        else sec10
      | none => sec10
    match objGet md "object-position-block" with
    | some v =>
      if v.2 ≠ "" then
        onBlocks (fun c => { c with dataset := objSet c.dataset "objectPosition" v.2 }) sec11
      else sec11
    | none => sec11

/-- `handleSectionMetadata` (lines 291–364).  `closest` is the result of
`el.closest('.section')`: `none` makes the function return before touching
anything (`if (!section) return;`), and in particular before the final
`el.remove()`.  The second component records whether `el.remove()` ran. -/
noncomputable def handleSectionMetadata (closest : Option SectionNode)
    (rows : List (List Cell)) (computedSec computedBlock : String) :
    Option SectionNode × Bool :=
  match closest with
  | none => (none, false)
  | some sec => (some (applyMeta rows computedSec computedBlock sec), true)

/-! ## Link Decorator (`decorateHash`, `localizeUrl`, `decorateLink`,
`decorateLinks`, scripts.js lines 372–468)

A parsed URL (the result of the browser's `new URL(...)`) is the record of
the components the source reads; its serialisation `href` is
`origin ++ pathname ++ search ++ hash`.  `new URL(a.href)` itself is a
browser built-in, so `decorateLink` receives the parse result as an
`Option URLRec` argument — `none` is the constructor throwing, which the
source catches and logs. -/

structure URLRec where
  origin : String
  hostname : String
  pathname : String
  search : String
  hash : String
deriving DecidableEq, Repr

def urlHref (u : URLRec) : String := u.origin ++ u.pathname ++ u.search ++ u.hash

/-- An anchor element: the fields `decorateLink` reads or writes. -/
structure Anchor where
  href : String
  target : Option String
  classes : List String
deriving DecidableEq, Repr

/-- The configuration assembled by `setConfig` (lines 61–76, 543–559):
internal hostnames, the locale path prefixes (`Object.keys(locales)`), the
current locale's prefix, and the widget patterns as (key, substring)
pairs. -/
structure Config where
  hostnames : List String
  localeKeys : List String
  localePfx : String
  widgets : List (String × String)
deriving DecidableEq, Repr

/-- `decorateHash` (lines 372–388): on an empty or bare-`#` fragment do
nothing; otherwise test the original fragment for `#_blank`, `#_dnt`,
`#_dnb` in that order, stripping each found directive's first occurrence
from the anchor's href, and set `target='_blank'` when `#_blank` was found.
Returns the updated anchor and the `(dnt, dnb)` flags. -/
def decorateHash (a : Anchor) (url : URLRec) : Anchor × Bool × Bool :=
  let hash := url.hash
  if hash = "" ∨ hash = "#" then (a, false, false)
  else
    let blank := containsSubS hash "#_blank"
    let a1 := if blank then { a with href := replaceFirstS a.href "#_blank" "" } else a
    let a2 := if blank then { a1 with target := some "_blank" } else a1
    let dnt := containsSubS hash "#_dnt"
    let a3 := if dnt then { a2 with href := replaceFirstS a2.href "#_dnt" "" } else a2
    let dnb := containsSubS hash "#_dnb"
    let a4 := if dnb then { a3 with href := replaceFirstS a3.href "#_dnb" "" } else a3
    (a4, dnt, dnb)

/-- `localizeUrl` (lines 396–418): in the root locale, or when the path is
already under this or any other configured non-root locale, do nothing;
otherwise insert the locale prefix right after the origin. -/
def localizeUrl (localeKeys : List String) (pfx : String) (url : URLRec) : Option URLRec :=
  if pfx = "" then none
  else if startsWithS url.pathname (pfx ++ "/") then none
  else if localeKeys.any (fun k => !(k == "") && startsWithS url.pathname (k ++ "/")) then none
  else some { url with pathname := pfx ++ url.pathname }

/-- Modelled from the spec: `decorateButtons` is an external collaborator
imported from `aem.js`, which is not among the sources ("Apply generic
button decoration (external collaborator)", §4.4 step 5); none of its
effects are described by the spec, so on the fields modelled here it is the
identity. -/
def decorateButtons (a : Anchor) : Anchor := a

/-- The host-stripping step of `decorateLink` (lines 429–430): when the
URL's hostname ends with a configured internal hostname, remove the first
occurrence of the origin from the href. -/
def hostStrip (cfg : Config) (a : Anchor) (url : URLRec) : Anchor :=
  if cfg.hostnames.any (fun h => endsWithS url.hostname h) then
    { a with href := replaceFirstS a.href url.origin "" }
  else a

/-- The widget scan of `decorateLink` (lines 440–445): test the current
href against the configured patterns in order and return the first matching
pattern's key. -/
def findWidget (widgets : List (String × String)) (href : String) : Option String :=
  widgets.findSome? (fun kp => if containsSubS href kp.2 then some kp.1 else none)

/-- The anchor as it stands right before the widget scan: host-stripped,
hash-decorated, localized unless `#_dnt`, and button-decorated. -/
def preWidget (cfg : Config) (a : Anchor) (url : URLRec) : Anchor :=
  let a1 := hostStrip cfg a url
  let h := decorateHash a1 url
  let a3 :=
    if h.2.1 then h.1
    else
      match localizeUrl cfg.localeKeys cfg.localePfx url with
      | some lu => { h.1 with href := urlHref lu }
      | none => h.1
  decorateButtons a3

/-- The result of `decorateLink`: the anchor as mutated, the anchor
reported as a widget (`null` when no pattern matched, the link failed to
parse, or `#_dnb` was present), and whether the failure was logged. -/
structure DecRes where
  anchor : Anchor
  widget : Option Anchor
  logged : Bool
deriving DecidableEq, Repr

/-- `decorateLink` (lines 426–453).  `url?` is the outcome of
`new URL(a.href)`: `none` is the constructor throwing, which the `catch`
turns into a log and a `null` return with the anchor untouched. -/
def decorateLink (cfg : Config) (a : Anchor) (url? : Option URLRec) : DecRes :=
  match url? with
  | none => ⟨a, none, true⟩
  | some url =>
    let a4 := preWidget cfg a url
    let dnb := (decorateHash (hostStrip cfg a url) url).2.2
    if dnb then ⟨a4, none, false⟩
    else
      match findWidget cfg.widgets a4.href with
      | some key =>
        let a5 := { a4 with classes := addClasses a4.classes [key, "auto-block"] }
        ⟨a5, some a5, false⟩
      | none => ⟨a4, none, false⟩

/-- `decorateLinks` (lines 460–468): process the anchors in document order
(each paired with its `new URL` outcome); the first component is the
anchors as mutated, the second the reduce-accumulated widget anchors. -/
def decorateLinks (cfg : Config) (ancs : List (Anchor × Option URLRec)) :
    List Anchor × List Anchor :=
  (ancs.map (fun p => (decorateLink cfg p.1 p.2).anchor),
   ancs.filterMap (fun p => (decorateLink cfg p.1 p.2).widget))

/-! ## Child Grouper: lemmas and claims C1, C2 -/

theorem groupClassOf_beq_block (b : Bool) : (groupClassOf b == "block-content") = b := by
  cases b <;> decide

theorem groupLoop_spec (cs : List ChildElem) : ∀ (b : Bool) (acc : List ChildElem),
    acc ≠ [] → (∀ x ∈ acc, isDivTag x = b) →
    (groupLoop ⟨groupClassOf b, acc⟩ cs).length = changesFrom b cs + 1
    ∧ ((groupLoop ⟨groupClassOf b, acc⟩ cs).map GroupElem.children).flatten = acc ++ cs
    ∧ ∀ g ∈ groupLoop ⟨groupClassOf b, acc⟩ cs,
        g.children ≠ [] ∧ ∀ x ∈ g.children, g.groupClass = groupClassOf (isDivTag x) := by
  induction cs with
  | nil =>
    intro b acc hne hacc
    refine ⟨rfl, by simp [groupLoop], ?_⟩
    intro g hg
    simp only [groupLoop, List.mem_singleton] at hg
    subst hg
    exact ⟨hne, fun x hx => by rw [hacc x hx]⟩
  | cons c cs ih =>
    intro b acc hne hacc
    rw [show groupLoop ⟨groupClassOf b, acc⟩ (c :: cs)
        = if (groupClassOf b == "block-content") == isDivTag c then
            groupLoop ⟨groupClassOf b, acc ++ [c]⟩ cs
          else ⟨groupClassOf b, acc⟩ :: groupLoop ⟨groupClassOf (isDivTag c), [c]⟩ cs from rfl,
      groupClassOf_beq_block]
    by_cases hb : b = isDivTag c
    · have hcond : (b == isDivTag c) = true := by rw [hb]; simp
      rw [hcond, if_pos rfl]
      have hacc' : ∀ x ∈ acc ++ [c], isDivTag x = b := by
        intro x hx
        rcases List.mem_append.mp hx with h | h
        · exact hacc x h
        · simp only [List.mem_singleton] at h; subst h; exact hb.symm
      obtain ⟨hlen, hjoin, hmem⟩ := ih b (acc ++ [c]) (by simp) hacc'
      refine ⟨?_, ?_, hmem⟩
      · rw [hlen]
        simp [changesFrom, ← hb]
      · rw [hjoin]; simp
    · have hcond : (b == isDivTag c) = false := by
        cases b <;> cases h : isDivTag c <;> simp_all
      rw [hcond]
      simp only [Bool.false_eq_true, if_false]
      obtain ⟨hlen, hjoin, hmem⟩ := ih (isDivTag c) [c] (by simp) (by simp)
      refine ⟨?_, ?_, ?_⟩
      · simp only [List.length_cons, hlen]
        have : (isDivTag c == b) = false := by
          cases b <;> cases h : isDivTag c <;> simp_all
        simp [changesFrom, this]
        omega
      · simp only [List.map_cons, List.flatten_cons]
        rw [hjoin]
        simp
      · intro g hg
        rcases List.mem_cons.mp hg with h | h
        · subst h
          exact ⟨hne, fun x hx => by rw [hacc x hx]⟩
        · exact hmem g h

theorem transitions_eq_changesFrom (cs : List ChildElem) :
    ∀ c, transitions isDivTag (c :: cs) = changesFrom (isDivTag c) cs := by
  induction cs with
  | nil => intro c; rfl
  | cons d t ih =>
    intro c
    cases hc : isDivTag c <;> cases hd : isDivTag d <;>
      simp [transitions, changesFrom, hc, hd, ih d]

/-- The concrete section children refuting C1 as stated: a `DIV` carrying a
class (block-like per the spec) followed by a class-less `DIV` (not
block-like per the spec). -/
def c1CexChildren : List ChildElem := [⟨"DIV", ["a"]⟩, ⟨"DIV", []⟩]

/-- C1 counterexample: on the children `[DIV.a, DIV (no class)]` the spec's
block-like classification (generic container with at least one class name)
has one transition, so the claim predicts 1 + 1 = 2 groups; but the
grouping loop of `groupChildren` classifies by tag name alone and produces
a single `block-content` group containing both children. -/
theorem c1_counterexample :
    specBlockLike ⟨"DIV", ["a"]⟩ = true
    ∧ specBlockLike ⟨"DIV", []⟩ = false
    ∧ transitions specBlockLike c1CexChildren + 1 = 2
    ∧ groupChildren c1CexChildren = [⟨"block-content", c1CexChildren⟩]
    ∧ (groupChildren c1CexChildren).length = 1 := by
  refine ⟨rfl, rfl, rfl, ?_, ?_⟩ <;> decide

/-- C1 (amended): for a section whose children (metadata rows excluded)
contain at least one `hasBlocks` witness — a `DIV` carrying a class name —
the grouping loop classifies each child as block-grouped exactly when it is
a generic container element (`tagName === 'DIV'`), regardless of class
names; it starts a new wrapper group whenever this tag-based classification
changes (or at the start) and appends each child to the current group, so
the number of groups equals the number of tag-classification transitions
plus one, concatenating the groups' children reproduces the original order,
and every child sits in a group whose wrapper class matches the child's own
tag-based classification. -/
theorem c1_grouping_amended (allChildren : List ChildElem) (c : ChildElem) (cs : List ChildElem)
    (hch : allChildren.filter (fun x => !(x.classes.contains "section-metadata")) = c :: cs)
    (hblocks : (c :: cs).any hasBlocksTest = true) :
    (groupChildren allChildren).length = transitions isDivTag (c :: cs) + 1
    ∧ ((groupChildren allChildren).map GroupElem.children).flatten = c :: cs
    ∧ ∀ g ∈ groupChildren allChildren,
        g.children ≠ [] ∧ ∀ x ∈ g.children, g.groupClass = groupClassOf (isDivTag x) := by
  have hgc : groupChildren allChildren = groupLoop ⟨groupClassOf (isDivTag c), [c]⟩ cs := by
    unfold groupChildren
    rw [hch]
    simp [hblocks]
  obtain ⟨hlen, hjoin, hmem⟩ :=
    groupLoop_spec cs (isDivTag c) [c] (by simp) (by simp)
  rw [hgc, transitions_eq_changesFrom cs c]
  exact ⟨hlen, by rw [hjoin]; rfl, hmem⟩

/-- C1 witness: children `[P, DIV.x]` (one tag transition) yield two groups
that concatenate back to the original order. -/
theorem c1_grouping_amended_witness :
    (groupChildren [⟨"P", []⟩, ⟨"DIV", ["x"]⟩]).length
        = transitions isDivTag [⟨"P", []⟩, ⟨"DIV", ["x"]⟩] + 1
    ∧ ((groupChildren [⟨"P", []⟩, ⟨"DIV", ["x"]⟩]).map GroupElem.children).flatten
        = [⟨"P", []⟩, ⟨"DIV", ["x"]⟩]
    ∧ ∀ g ∈ groupChildren [⟨"P", []⟩, ⟨"DIV", ["x"]⟩],
        g.children ≠ [] ∧ ∀ x ∈ g.children, g.groupClass = groupClassOf (isDivTag x) :=
  c1_grouping_amended [⟨"P", []⟩, ⟨"DIV", ["x"]⟩] ⟨"P", []⟩ [⟨"DIV", ["x"]⟩]
    (by decide) (by decide)

/-- C2: a section with at least one child (metadata rows excluded) but zero
spec-block-like children yields exactly one `default-content` group holding
all the children in their original order; with zero children (after
excluding metadata rows) it yields zero groups. -/
theorem c2_no_blocks (allChildren : List ChildElem) :
    (allChildren.filter (fun x => !(x.classes.contains "section-metadata")) = [] →
      groupChildren allChildren = [])
    ∧ (∀ c cs,
        allChildren.filter (fun x => !(x.classes.contains "section-metadata")) = c :: cs →
        (∀ x ∈ c :: cs, specBlockLike x = false) →
        groupChildren allChildren = [⟨"default-content", c :: cs⟩]) := by
  constructor
  · intro h
    unfold groupChildren
    rw [h]
  · intro c cs hch hnone
    have hany : (c :: cs).any hasBlocksTest = false := by
      rw [List.any_eq_false]
      intro x hx
      have := hnone x hx
      simpa [hasBlocksTest, specBlockLike] using this
    unfold groupChildren
    rw [hch]
    simp [hany]

/-- C2 witness: a metadata row plus a paragraph yield one default-content
group with the paragraph; a lone metadata row yields no groups. -/
theorem c2_no_blocks_witness :
    groupChildren [⟨"DIV", ["section-metadata"]⟩, ⟨"P", []⟩]
        = [⟨"default-content", [⟨"P", []⟩]⟩]
    ∧ groupChildren [⟨"DIV", ["section-metadata"]⟩] = [] :=
  ⟨(c2_no_blocks [⟨"DIV", ["section-metadata"]⟩, ⟨"P", []⟩]).2 ⟨"P", []⟩ []
      (by decide) (by decide),
   (c2_no_blocks [⟨"DIV", ["section-metadata"]⟩]).1 (by decide)⟩

/-! ## Colour/Background Analyzer: lemmas and claim C3 -/

theorem srgbLinear_one : srgbLinear 1 = 1 := by
  unfold srgbLinear
  rw [if_neg (by norm_num)]
  have h : ((1 : ℝ) + 0.055) / 1.055 = 1 := by norm_num
  rw [h, Real.one_rpow]

theorem srgbLinear_zero : srgbLinear 0 = 0 := by
  unfold srgbLinear
  rw [if_pos (by norm_num)]
  norm_num

theorem lum_white : getRelativeLuminance 255 255 255 = 1 := by
  unfold getRelativeLuminance
  have h255 : ((255 : ℕ) : ℝ) / 255 = 1 := by norm_num
  rw [h255, srgbLinear_one]
  norm_num

theorem lum_black : getRelativeLuminance 0 0 0 = 0 := by
  unfold getRelativeLuminance
  have h0 : ((0 : ℕ) : ℝ) / 255 = 0 := by norm_num
  rw [h0, srgbLinear_zero]
  norm_num

theorem parseColor_white : parseColor "rgb(255, 255, 255)" = some (255, 255, 255) := by
  decide

theorem parseColor_black : parseColor "rgb(0, 0, 0)" = some (0, 0, 0) := by
  decide

theorem getColorScheme_white : getColorScheme "rgb(255, 255, 255)" = some "light-scheme" := by
  unfold getColorScheme
  rw [parseColor_white]
  show some (if getRelativeLuminance 255 255 255 > 0.5 then "light-scheme" else "dark-scheme")
      = some "light-scheme"
  rw [lum_white, if_pos (by norm_num)]

theorem getColorScheme_black : getColorScheme "rgb(0, 0, 0)" = some "dark-scheme" := by
  unfold getColorScheme
  rw [parseColor_black]
  show some (if getRelativeLuminance 0 0 0 > 0.5 then "light-scheme" else "dark-scheme")
      = some "dark-scheme"
  rw [lum_black, if_neg (by norm_num)]

/-- C3: whenever the computed background contains an `rgb(r,g,b)` form,
`getColorScheme` returns the light marker exactly when the relative
luminance of the sRGB gamma-correction formula exceeds 0.5 and the dark
marker otherwise; `rgb(255,255,255)` yields light and `rgb(0,0,0)` yields
dark; a computed value with no `rgb(r,g,b)` form yields `null`. -/
theorem c3_color_scheme :
    (∀ s, parseColor s = none → getColorScheme s = none)
    ∧ (∀ s r g b, parseColor s = some (r, g, b) →
        ((getColorScheme s = some "light-scheme") ↔ getRelativeLuminance r g b > 0.5)
        ∧ ((getColorScheme s = some "dark-scheme") ↔ ¬(getRelativeLuminance r g b > 0.5)))
    ∧ getColorScheme "rgb(255, 255, 255)" = some "light-scheme"
    ∧ getColorScheme "rgb(0, 0, 0)" = some "dark-scheme" := by
  refine ⟨?_, ?_, getColorScheme_white, getColorScheme_black⟩
  · intro s h
    unfold getColorScheme
    rw [h]
  · intro s r g b h
    unfold getColorScheme
    rw [h]
    by_cases hc : getRelativeLuminance r g b > 0.5
    · simp [hc]
    · simp [hc]

/-- C3 witness: a non-`rgb` computed value (`blue`) gives no scheme, and on
`rgb(0, 0, 0)` the light marker is equivalent to luminance above 0.5. -/
theorem c3_color_scheme_witness :
    getColorScheme "blue" = none
    ∧ ((getColorScheme "rgb(0, 0, 0)" = some "light-scheme")
        ↔ getRelativeLuminance 0 0 0 > 0.5) :=
  ⟨c3_color_scheme.1 "blue" (by decide),
   (c3_color_scheme.2.1 "rgb(0, 0, 0)" 0 0 0 (by decide)).1⟩

/-! ## Background metadata: lemmas and claim C4 -/

theorem isPrefixOfL_self_append (pat rest : List Char) :
    isPrefixOfL pat (pat ++ rest) = true := by
  induction pat with
  | nil => rfl
  | cons p ps ih => simp [isPrefixOfL, ih]

theorem replaceFirstL_self_append (pat rep rest : List Char) :
    replaceFirstL pat rep (pat ++ rest) = rep ++ rest := by
  cases pat with
  | nil => cases rest <;> simp [replaceFirstL, isPrefixOfL]
  | cons p ps =>
    show replaceFirstL (p :: ps) rep (p :: (ps ++ rest)) = rep ++ rest
    have hpre : isPrefixOfL (p :: ps) (p :: (ps ++ rest)) = true :=
      isPrefixOfL_self_append (p :: ps) rest
    unfold replaceFirstL
    rw [if_pos hpre]
    simp [List.drop_left]

theorem startsWithS_token (name : String) :
    startsWithS ("color-token-" ++ name) "color-token" = true := by
  unfold startsWithS
  rw [show ("color-token-" ++ name).data = "color-token".data ++ (['-'] ++ name.data) by
    simp [String.data_append]]
  exact isPrefixOfL_self_append _ _

theorem resolveBgStyle_token (name : String) :
    resolveBgStyle ("color-token-" ++ name) = "var(--color-" ++ name ++ ")" := by
  unfold resolveBgStyle
  rw [if_pos (startsWithS_token name)]
  unfold replaceFirstS
  apply String.ext
  rw [show ("color-token-" ++ name).data = "color-token".data ++ (['-'] ++ name.data) by
    simp [String.data_append]]
  rw [replaceFirstL_self_append]
  simp [String.data_append]

theorem setColorScheme_styleBg (computedBg : String) (s : SectionNode) :
    (setColorScheme computedBg s).styleBg = s.styleBg := by
  unfold setColorScheme
  cases getColorScheme computedBg <;> rfl

theorem setColorScheme_children (computedBg : String) (s : SectionNode) (scheme : String)
    (h : getColorScheme computedBg = some scheme) :
    (setColorScheme computedBg s).children
      = s.children.map (fun c => { c with classes := applyScheme scheme c.classes }) := by
  unfold setColorScheme
  rw [h]

/-- C4: a non-empty `background` metadata value starting with `color-token`
sets the section's inline background to the `var(--color...)` resolution of
the value (`color-token-<name>` becomes `var(--color-<name>)`, in
particular `color-token-brand` becomes `var(--color-brand)`); any other
non-empty value is set verbatim; afterwards the scheme derived from the
section's computed background is added as a class to every direct child,
replacing any prior light/dark scheme class. -/
theorem c4_background (text computedBg : String) (sec : SectionNode) (scheme : String)
    (htext : text ≠ "")
    (hscheme : getColorScheme computedBg = some scheme) :
    (handleBackground text computedBg sec).styleBg = some (resolveBgStyle text)
    ∧ (startsWithS text "color-token" = true →
        (handleBackground text computedBg sec).styleBg
          = some ("var(" ++ replaceFirstS text "color-token" "--color" ++ ")"))
    ∧ (startsWithS text "color-token" = false →
        (handleBackground text computedBg sec).styleBg = some text)
    ∧ (∀ name, (handleBackground ("color-token-" ++ name) computedBg sec).styleBg
        = some ("var(--color-" ++ name ++ ")"))
    ∧ (handleBackground "color-token-brand" computedBg sec).styleBg
        = some "var(--color-brand)"
    ∧ (handleBackground text computedBg sec).children
        = sec.children.map (fun c => { c with classes := applyScheme scheme c.classes }) := by
  have hbg : ∀ t : String, t ≠ "" →
      handleBackground t computedBg sec
        = setColorScheme computedBg { sec with styleBg := some (resolveBgStyle t) } := by
    intro t ht
    unfold handleBackground
    rw [if_neg ht]
  have hstyle : ∀ t : String, t ≠ "" →
      (handleBackground t computedBg sec).styleBg = some (resolveBgStyle t) := by
    intro t ht
    rw [hbg t ht, setColorScheme_styleBg]
  refine ⟨hstyle text htext, ?_, ?_, ?_, ?_, ?_⟩
  · intro hs
    rw [hstyle text htext]
    unfold resolveBgStyle
    rw [if_pos hs]
  · intro hs
    rw [hstyle text htext]
    unfold resolveBgStyle
    rw [if_neg (by simp [hs])]
  · intro name
    have hne : "color-token-" ++ name ≠ "" := by
      intro h
      have hd := congrArg String.data h
      simp [String.data_append] at hd
    rw [hstyle ("color-token-" ++ name) hne, resolveBgStyle_token]
  · rw [hstyle "color-token-brand" (by decide)]
    rw [show resolveBgStyle "color-token-brand" = "var(--color-brand)" from by decide]
  · rw [hbg text htext, setColorScheme_children computedBg _ scheme hscheme]

/-- C4 witness: `background | color-token-brand` over a white computed
background on a section with one `dark-scheme` child. -/
theorem c4_background_witness :
    (handleBackground "color-token-brand" "rgb(255, 255, 255)"
        ⟨[], none, [], [⟨"DIV", ["block-content", "dark-scheme"], none, [], [], []⟩], []⟩).styleBg
      = some "var(--color-brand)"
    ∧ (handleBackground "color-token-brand" "rgb(255, 255, 255)"
        ⟨[], none, [], [⟨"DIV", ["block-content", "dark-scheme"], none, [], [], []⟩], []⟩).children
      = [⟨"DIV", ["block-content", "light-scheme"], none, [], [], []⟩] := by
  obtain ⟨-, -, -, -, hbrand, hch⟩ :=
    c4_background "color-token-brand" "rgb(255, 255, 255)"
      ⟨[], none, [], [⟨"DIV", ["block-content", "dark-scheme"], none, [], [], []⟩], []⟩
      "light-scheme" (by decide) getColorScheme_white
  exact ⟨hbrand, by rw [hch]; decide⟩

/-! ## Metadata parsing: lemmas and claim C5 -/

theorem objGet_cons {A : Type} (a : String) (b : A) (t : List (String × A)) (q : String) :
    objGet ((a, b) :: t) q = if a == q then some b else objGet t q := by
  unfold objGet
  by_cases h : a == q <;> simp [List.find?, h]

theorem objSet_cons {A : Type} (a : String) (b : A) (t : List (String × A)) (k : String)
    (v : A) :
    objSet ((a, b) :: t) k v = if a == k then (k, v) :: t else (a, b) :: objSet t k v := rfl

theorem objGet_objSet {A : Type} (m : List (String × A)) (k : String) (v : A) (q : String) :
    objGet (objSet m k v) q = if q = k then some v else objGet m q := by
  induction m with
  | nil =>
    unfold objSet
    rw [objGet_cons]
    by_cases h : q = k
    · subst h; simp
    · simp [h, Ne.symm h]
  | cons p t ih =>
    obtain ⟨a, b⟩ := p
    rw [objSet_cons]
    by_cases hak : a = k
    · subst hak
      rw [if_pos (by simp)]
      rw [objGet_cons, objGet_cons]
      by_cases h : q = a
      · subst h; simp
      · simp [h, Ne.symm h]
    · rw [if_neg (by simp [hak])]
      rw [objGet_cons, ih, objGet_cons]
      by_cases haq : a = q
      · subst haq
        simp [hak]
      · by_cases hq : q = k <;> simp [haq, hq, hak]

/-- C5: when the same (trimmed, lower-cased) key appears in more than one
two-cell metadata row, the parsed metadata holds exactly the last
qualifying occurrence's content and text — i.e. for every key the lookup in
the object built by `getSectionMetadata` equals the value of the last
qualifying row carrying that key, so every subsequent effect reads that
last value. -/
theorem c5_last_wins (rows : List (List Cell)) (key : String) :
    objGet (getSectionMetadata rows) key = lastEntry key rows := by
  induction rows using List.reverseRecOn with
  | nil => rfl
  | append_singleton rs r ih =>
    unfold getSectionMetadata at ih ⊢
    rw [List.foldl_append]
    simp only [List.foldl_cons, List.foldl_nil]
    unfold lastEntry at ih ⊢
    rw [List.reverse_append]
    simp only [List.reverse_cons, List.reverse_nil, List.nil_append, List.cons_append,
      List.findSome?_cons]
    cases hre : rowEntry r with
    | none => simpa [hre] using ih
    | some kv =>
      obtain ⟨k, v⟩ := kv
      rw [objGet_objSet]
      by_cases h : key = k
      · subst h; simp
      · rw [if_neg h]
        have hk : (k == key) = false := by simp [Ne.symm h]
        simp [hk, ih]

/-! ## Metadata interpreter guard: claim C10 -/

/-- C10: when the metadata element has no enclosing `.section` element
(itself included), `handleSectionMetadata` performs no mutation at all and
does not remove the metadata element; removal of the metadata element
happens exactly on the normal path where an enclosing section exists. -/
theorem c10_no_section_no_op (rows : List (List Cell)) (computedSec computedBlock : String) :
    handleSectionMetadata none rows computedSec computedBlock = (none, false)
    ∧ ∀ sec, (handleSectionMetadata (some sec) rows computedSec computedBlock).2 = true :=
  ⟨rfl, fun _ => rfl⟩

/-! ## Link Decorator: lemmas for claims C6–C9 -/

theorem isPrefixOfL_length (pat s : List Char) (h : isPrefixOfL pat s = true) :
    pat.length ≤ s.length := by
  induction pat generalizing s with
  | nil => simp
  | cons p ps ih =>
    cases s with
    | nil => simp [isPrefixOfL] at h
    | cons c cs =>
      simp only [isPrefixOfL, Bool.and_eq_true] at h
      simpa using ih cs h.2

theorem containsSubL_length (pat s : List Char) (h : containsSubL pat s = true) :
    pat.length ≤ s.length := by
  induction s with
  | nil => exact isPrefixOfL_length pat [] h
  | cons c cs ih =>
    simp only [containsSubL, Bool.or_eq_true] at h
    rcases h with h | h
    · exact isPrefixOfL_length pat (c :: cs) h
    · have := ih h
      simp only [List.length_cons]
      omega

/-- A fragment containing a directive (all directives have length ≥ 2) is
neither empty nor the bare `#`, so `decorateHash` does not early-return. -/
theorem hash_not_bare (hash pat : String) (h : containsSubS hash pat = true)
    (hlen : 2 ≤ pat.data.length) : ¬(hash = "" ∨ hash = "#") := by
  have hlen2 : pat.data.length ≤ hash.data.length := containsSubL_length _ _ h
  intro hc
  rcases hc with hc | hc <;> subst hc
  · have h0 : ("" : String).data.length = 0 := rfl
    omega
  · have h1 : ("#" : String).data.length = 1 := rfl
    omega

/-- Conditional first-occurrence strip: the effect of one `findHash` call
on the anchor href. -/
def condStrip (b : Bool) (pat s : String) : String :=
  if b then replaceFirstS s pat "" else s

/-- The `dnt`/`dnb` flags of `decorateHash` are exactly the membership
tests of the original fragment (also on the early-return path, where the
fragment can contain no directive). -/
theorem decorateHash_flags (a : Anchor) (url : URLRec) :
    (decorateHash a url).2.1 = containsSubS url.hash "#_dnt"
    ∧ (decorateHash a url).2.2 = containsSubS url.hash "#_dnb" := by
  unfold decorateHash
  by_cases hne : url.hash = "" ∨ url.hash = "#"
  · have hdnt : containsSubS url.hash "#_dnt" = false := by
      rcases hne with h | h <;> rw [h] <;> decide
    have hdnb : containsSubS url.hash "#_dnb" = false := by
      rcases hne with h | h <;> rw [h] <;> decide
    rw [if_pos hne]
    exact ⟨by rw [hdnt], by rw [hdnb]⟩
  · rw [if_neg hne]
    exact ⟨rfl, rfl⟩

theorem decorateHash_classes (a : Anchor) (url : URLRec) :
    ((decorateHash a url).1).classes = a.classes := by
  unfold decorateHash
  by_cases hne : url.hash = "" ∨ url.hash = "#"
  · rw [if_pos hne]
  · rw [if_neg hne]
    cases hb : containsSubS url.hash "#_blank" <;>
      cases ht : containsSubS url.hash "#_dnt" <;>
      cases hd : containsSubS url.hash "#_dnb" <;> simp [hb, ht, hd]

theorem hostStrip_classes (cfg : Config) (a : Anchor) (url : URLRec) :
    (hostStrip cfg a url).classes = a.classes := by
  unfold hostStrip
  by_cases h : cfg.hostnames.any (fun h => endsWithS url.hostname h) = true <;> simp [h]

theorem preWidget_classes (cfg : Config) (a : Anchor) (url : URLRec) :
    (preWidget cfg a url).classes = a.classes := by
  unfold preWidget decorateButtons
  cases hdnt : (decorateHash (hostStrip cfg a url) url).2.1 <;>
    cases hlu : localizeUrl cfg.localeKeys cfg.localePfx url <;>
    simp [hdnt, hlu, decorateHash_classes, hostStrip_classes]

/-- Whatever the widget scan does, the final href of `decorateLink` is the
href the anchor had right before the scan. -/
theorem decorateLink_anchor_href (cfg : Config) (a : Anchor) (url : URLRec) :
    (decorateLink cfg a (some url)).anchor.href = (preWidget cfg a url).href := by
  unfold decorateLink
  cases hdnb : (decorateHash (hostStrip cfg a url) url).2.2 <;>
    cases hw : findWidget cfg.widgets (preWidget cfg a url).href <;>
    simp [hdnb, hw]

/-- With `#_dnt` in the fragment, localization is skipped: the pre-widget
href is the hash-decorated href. -/
theorem preWidget_href_dnt (cfg : Config) (a : Anchor) (url : URLRec)
    (hdnt : containsSubS url.hash "#_dnt" = true) :
    (preWidget cfg a url).href = ((decorateHash (hostStrip cfg a url) url).1).href := by
  have hd : (decorateHash (hostStrip cfg a url) url).2.1 = true := by
    rw [(decorateHash_flags (hostStrip cfg a url) url).1]
    exact hdnt
  unfold preWidget decorateButtons
  simp [hd]

/-! ## Claim C6: link localization -/

/-- C6: with a non-root locale, `localizeUrl` rewrites exactly when the
path is prefixed by no configured locale (this one or any other non-root
one), and then inserts the locale prefix right after the origin; with
prefix `/de`, path `/products` becomes `/de/products` while `/de/products`
is left alone; and an anchor whose fragment carries `#_dnt` keeps the
hash-decorated href — the prefix is never applied. -/
theorem c6_localize (keys : List String) (pfx : String) (url : URLRec) (hpfx : pfx ≠ "") :
    ((localizeUrl keys pfx url).isSome ↔
      ¬(startsWithS url.pathname (pfx ++ "/") = true
        ∨ ∃ k ∈ keys, k ≠ "" ∧ startsWithS url.pathname (k ++ "/") = true))
    ∧ (∀ lu, localizeUrl keys pfx url = some lu →
        lu.pathname = pfx ++ url.pathname
        ∧ urlHref lu = url.origin ++ pfx ++ url.pathname ++ url.search ++ url.hash)
    ∧ localizeUrl ["", "/de"] "/de" ⟨"https://ex.com", "ex.com", "/products", "", ""⟩
        = some ⟨"https://ex.com", "ex.com", "/de/products", "", ""⟩
    ∧ localizeUrl ["", "/de"] "/de" ⟨"https://ex.com", "ex.com", "/de/products", "", ""⟩
        = none
    ∧ (∀ cfg a, containsSubS url.hash "#_dnt" = true →
        (decorateLink cfg a (some url)).anchor.href
          = ((decorateHash (hostStrip cfg a url) url).1).href) := by
  refine ⟨?_, ?_, by decide, by decide, ?_⟩
  · unfold localizeUrl
    rw [if_neg hpfx]
    by_cases h1 : startsWithS url.pathname (pfx ++ "/") = true
    · simp [h1]
    · by_cases h2 : keys.any (fun k => !(k == "") && startsWithS url.pathname (k ++ "/")) = true
      · rw [if_neg h1, if_pos h2]
        simp only [List.any_eq_true, Bool.and_eq_true, Bool.not_eq_eq_eq_not,
          Bool.not_true, beq_eq_false_iff_ne] at h2
        simp only [Option.isSome_none, Bool.false_eq_true, false_iff]
        intro hcon
        exact hcon (Or.inr (by
          obtain ⟨k, hk, hne, hst⟩ := h2
          exact ⟨k, hk, hne, hst⟩))
      · rw [if_neg h1, if_neg h2]
        simp only [Option.isSome_some, true_iff]
        intro hcon
        rcases hcon with hcon | ⟨k, hk, hne, hst⟩
        · exact h1 hcon
        · exact h2 (by
            rw [List.any_eq_true]
            exact ⟨k, hk, by simp [hne, hst]⟩)
  · intro lu hlu
    unfold localizeUrl at hlu
    rw [if_neg hpfx] at hlu
    by_cases h1 : startsWithS url.pathname (pfx ++ "/") = true
    · rw [if_pos h1] at hlu; cases hlu
    · rw [if_neg h1] at hlu
      by_cases h2 : keys.any (fun k => !(k == "") && startsWithS url.pathname (k ++ "/")) = true
      · rw [if_pos h2] at hlu; cases hlu
      · rw [if_neg h2] at hlu
        cases hlu
        refine ⟨rfl, ?_⟩
        show url.origin ++ (pfx ++ url.pathname) ++ url.search ++ url.hash = _
        rw [String.append_assoc url.origin pfx url.pathname]
  · intro cfg a hdnt
    rw [decorateLink_anchor_href, preWidget_href_dnt cfg a url hdnt]

/-- C6 witness: concrete `/de` locale with `/products`, `/de/products` and
a `#_dnt` link. -/
theorem c6_localize_witness :
    localizeUrl ["", "/de"] "/de" ⟨"https://ex.com", "ex.com", "/products", "", ""⟩
        = some ⟨"https://ex.com", "ex.com", "/de/products", "", ""⟩
    ∧ localizeUrl ["", "/de"] "/de" ⟨"https://ex.com", "ex.com", "/de/products", "", ""⟩
        = none
    ∧ (decorateLink ⟨[], ["", "/de"], "/de", []⟩ ⟨"https://ex.com/a#_dnt", none, []⟩
          (some ⟨"https://ex.com", "ex.com", "/a", "", "#_dnt"⟩)).anchor.href
        = ((decorateHash
            (hostStrip ⟨[], ["", "/de"], "/de", []⟩ ⟨"https://ex.com/a#_dnt", none, []⟩
              ⟨"https://ex.com", "ex.com", "/a", "", "#_dnt"⟩)
            ⟨"https://ex.com", "ex.com", "/a", "", "#_dnt"⟩).1).href := by
  obtain ⟨-, -, h3, h4, h5⟩ :=
    c6_localize ["", "/de"] "/de" ⟨"https://ex.com", "ex.com", "/a", "", "#_dnt"⟩ (by decide)
  exact ⟨h3, h4, h5 ⟨[], ["", "/de"], "/de", []⟩ ⟨"https://ex.com/a#_dnt", none, []⟩ (by decide)⟩


/-! ## Claim C7: hash directives -/

/-- When localization does not rewrite (because of `#_dnt` or because
`localizeUrl` declines), the pre-widget href is the hash-decorated href. -/
theorem preWidget_href_nolocalize (cfg : Config) (a : Anchor) (url : URLRec)
    (h : (decorateHash (hostStrip cfg a url) url).2.1 = true
      ∨ localizeUrl cfg.localeKeys cfg.localePfx url = none) :
    (preWidget cfg a url).href = ((decorateHash (hostStrip cfg a url) url).1).href := by
  unfold preWidget decorateButtons
  rcases h with h | h
  · simp [h]
  · cases hdnt : (decorateHash (hostStrip cfg a url) url).2.1 <;> simp [hdnt, h]

/-- Unfolding of `decorateLink` on a successfully parsed URL. -/
theorem decorateLink_some (cfg : Config) (a : Anchor) (url : URLRec) :
    decorateLink cfg a (some url)
      = if (decorateHash (hostStrip cfg a url) url).2.2 then
          ⟨preWidget cfg a url, none, false⟩
        else
          match findWidget cfg.widgets (preWidget cfg a url).href with
          | some key =>
            ⟨{ preWidget cfg a url with
                classes := addClasses (preWidget cfg a url).classes [key, "auto-block"] },
             some { preWidget cfg a url with
                classes := addClasses (preWidget cfg a url).classes [key, "auto-block"] },
             false⟩
          | none => ⟨preWidget cfg a url, none, false⟩ := rfl

/-- C7 counterexample: with a non-root locale configured, a localized
`#_blank` link gets its original fragment — detected directive included —
restored by the localization rewrite (which serialises the stale parsed
URL): the final href still contains the stripped `#_blank`, refuting "after
the whole decoration of the anchor no detected directive substring remains
in its href". -/
theorem c7_counterexample :
    (decorateLink ⟨[], ["", "/de"], "/de", []⟩ ⟨"https://ex.com/products#_blank", none, []⟩
        (some ⟨"https://ex.com", "ex.com", "/products", "", "#_blank"⟩)).anchor.target
      = some "_blank"
    ∧ (decorateLink ⟨[], ["", "/de"], "/de", []⟩ ⟨"https://ex.com/products#_blank", none, []⟩
        (some ⟨"https://ex.com", "ex.com", "/products", "", "#_blank"⟩)).anchor.href
      = "https://ex.com/de/products#_blank"
    ∧ containsSubS "https://ex.com/de/products#_blank" "#_blank" = true := by
  refine ⟨?_, ?_, ?_⟩ <;> decide

/-- C7 (amended): on a non-trivial fragment, `decorateHash` tests the
original fragment for `#_blank`, then `#_dnt`, then `#_dnb`; `#_blank` sets
`target='_blank'`; each directive present has its first occurrence stripped
from the href at detection time, in that order, whether or not its
condition applies elsewhere — so the hash-decorated href is exactly the
three conditional strips applied to the incoming href; and the anchor
leaves the whole decoration with exactly that stripped href whenever
localization does not rewrite it (localization restores the original
fragment, directives included). -/
theorem c7_hash_directives (a : Anchor) (url : URLRec) (cfg : Config)
    (hne : ¬(url.hash = "" ∨ url.hash = "#")) :
    decorateHash a url =
      (⟨condStrip (containsSubS url.hash "#_dnb") "#_dnb"
          (condStrip (containsSubS url.hash "#_dnt") "#_dnt"
            (condStrip (containsSubS url.hash "#_blank") "#_blank" a.href)),
        if containsSubS url.hash "#_blank" = true then some "_blank" else a.target,
        a.classes⟩,
       containsSubS url.hash "#_dnt", containsSubS url.hash "#_dnb")
    ∧ ((containsSubS url.hash "#_dnt" = true
        ∨ localizeUrl cfg.localeKeys cfg.localePfx url = none) →
        (decorateLink cfg a (some url)).anchor.href
          = ((decorateHash (hostStrip cfg a url) url).1).href) := by
  constructor
  · unfold decorateHash
    rw [if_neg hne]
    cases hb : containsSubS url.hash "#_blank" <;>
      cases ht : containsSubS url.hash "#_dnt" <;>
      cases hd : containsSubS url.hash "#_dnb" <;>
      simp [condStrip, hb, ht, hd]
  · intro h
    rw [decorateLink_anchor_href]
    apply preWidget_href_nolocalize
    rcases h with h | h
    · exact Or.inl (by rw [(decorateHash_flags (hostStrip cfg a url) url).1]; exact h)
    · exact Or.inr h

/-- C7 witness: a `#_dnt` link in the root locale — the directive is
detected, stripped once, and (with no localization rewrite) absent from the
final href. -/
theorem c7_hash_directives_witness :
    decorateHash ⟨"https://ex.com/p#_dnt", none, []⟩
        ⟨"https://ex.com", "ex.com", "/p", "", "#_dnt"⟩
      = (⟨"https://ex.com/p", none, []⟩, true, false)
    ∧ (decorateLink ⟨[], [""], "", []⟩ ⟨"https://ex.com/p#_dnt", none, []⟩
        (some ⟨"https://ex.com", "ex.com", "/p", "", "#_dnt"⟩)).anchor.href
      = ((decorateHash
          (hostStrip ⟨[], [""], "", []⟩ ⟨"https://ex.com/p#_dnt", none, []⟩
            ⟨"https://ex.com", "ex.com", "/p", "", "#_dnt"⟩)
          ⟨"https://ex.com", "ex.com", "/p", "", "#_dnt"⟩).1).href := by
  obtain ⟨h1, h2⟩ := c7_hash_directives ⟨"https://ex.com/p#_dnt", none, []⟩
    ⟨"https://ex.com", "ex.com", "/p", "", "#_dnt"⟩ ⟨[], [""], "", []⟩ (by decide)
  refine ⟨?_, h2 (Or.inl (by decide))⟩
  rw [h1]
  decide

/-! ## Claim C8: widget classification -/

/-- C8: unless the do-not-block directive was detected, the widget scan
tests the pre-widget href against the configured patterns in configuration
order; the first matching pattern's key plus the `auto-block` marker are
added as classes and the anchor is recorded as the widget (at most one
pattern applies); with no matching pattern the anchor gains neither class
and no widget is recorded; and `decorateLinks` accumulates exactly the
matched anchors in document order. -/
theorem c8_widget_classify (cfg : Config) (a : Anchor) (url : URLRec)
    (hdnb : containsSubS url.hash "#_dnb" = false) :
    (∀ k, findWidget cfg.widgets (preWidget cfg a url).href = some k →
        (decorateLink cfg a (some url)).anchor.classes
            = addClasses a.classes [k, "auto-block"]
        ∧ (decorateLink cfg a (some url)).widget
            = some ((decorateLink cfg a (some url)).anchor))
    ∧ (findWidget cfg.widgets (preWidget cfg a url).href = none →
        (decorateLink cfg a (some url)).anchor.classes = a.classes
        ∧ (decorateLink cfg a (some url)).widget = none)
    ∧ (∀ (ws1 : List (String × String)) (k p : String) (ws2 : List (String × String))
          (href : String),
        (∀ q ∈ ws1, containsSubS href q.2 = false) →
        containsSubS href p = true →
        findWidget (ws1 ++ (k, p) :: ws2) href = some k)
    ∧ (∀ (ws : List (String × String)) (href : String),
        (∀ q ∈ ws, containsSubS href q.2 = false) → findWidget ws href = none)
    ∧ (∀ l1 l2, (decorateLinks cfg (l1 ++ l2)).2
        = (decorateLinks cfg l1).2 ++ (decorateLinks cfg l2).2) := by
  have hdnb2 : (decorateHash (hostStrip cfg a url) url).2.2 = false := by
    rw [(decorateHash_flags (hostStrip cfg a url) url).2]
    exact hdnb
  refine ⟨?_, ?_, ?_, ?_, ?_⟩
  · intro k hk
    rw [decorateLink_some, hdnb2]
    simp only [Bool.false_eq_true, if_false, hk]
    exact ⟨by rw [preWidget_classes], trivial⟩
  · intro hk
    rw [decorateLink_some, hdnb2]
    simp only [Bool.false_eq_true, if_false, hk]
    exact ⟨preWidget_classes cfg a url, trivial⟩
  · intro ws1 k p ws2 href hno hyes
    induction ws1 with
    | nil => simp [findWidget, List.findSome?_cons, hyes]
    | cons q t ih =>
      have hq : containsSubS href q.2 = false := hno q (by simp)
      simp only [findWidget, List.cons_append, List.findSome?_cons, hq, Bool.false_eq_true,
        if_false]
      exact ih (fun r hr => hno r (by simp [hr]))
  · intro ws href hno
    induction ws with
    | nil => rfl
    | cons q t ih =>
      have hq : containsSubS href q.2 = false := hno q (by simp)
      simp only [findWidget, List.findSome?_cons, hq, Bool.false_eq_true, if_false]
      exact ih (fun r hr => hno r (by simp [hr]))
  · intro l1 l2
    simp [decorateLinks, List.filterMap_append]

/-- C8 witness: the spec example — href containing `/fragments/foo` against
pattern `(fragment, /fragments/)` gains classes `fragment auto-block` and
is recorded as the widget. -/
theorem c8_widget_classify_witness :
    (decorateLink ⟨[], [""], "", [("fragment", "/fragments/")]⟩
        ⟨"https://x.com/fragments/foo", none, []⟩
        (some ⟨"https://x.com", "x.com", "/fragments/foo", "", ""⟩)).anchor.classes
      = ["fragment", "auto-block"]
    ∧ (decorateLink ⟨[], [""], "", [("fragment", "/fragments/")]⟩
        ⟨"https://x.com/fragments/foo", none, []⟩
        (some ⟨"https://x.com", "x.com", "/fragments/foo", "", ""⟩)).widget
      = some ((decorateLink ⟨[], [""], "", [("fragment", "/fragments/")]⟩
          ⟨"https://x.com/fragments/foo", none, []⟩
          (some ⟨"https://x.com", "x.com", "/fragments/foo", "", ""⟩)).anchor) := by
  obtain ⟨h1, -, -, -, -⟩ :=
    c8_widget_classify ⟨[], [""], "", [("fragment", "/fragments/")]⟩
      ⟨"https://x.com/fragments/foo", none, []⟩
      ⟨"https://x.com", "x.com", "/fragments/foo", "", ""⟩ (by decide)
  obtain ⟨hc, hw⟩ := h1 "fragment" (by decide)
  exact ⟨by rw [hc]; decide, hw⟩

/-! ## Claim C9: parse failure -/

/-- C9: when the href fails to parse as an absolute URL, `decorateLink`
logs the failure and returns `null`: the anchor's href, target and classes
are all left unchanged, it is not reported as a widget, and the decoration
pass over the remaining anchors proceeds (the failed anchor contributes
nothing to the widget list). -/
theorem c9_parse_failure (cfg : Config) (a : Anchor)
    (rest : List (Anchor × Option URLRec)) :
    decorateLink cfg a none = ⟨a, none, true⟩
    ∧ (decorateLink cfg a none).anchor.href = a.href
    ∧ (decorateLink cfg a none).anchor.target = a.target
    ∧ (decorateLink cfg a none).anchor.classes = a.classes
    ∧ (decorateLink cfg a none).widget = none
    ∧ (decorateLink cfg a none).logged = true
    ∧ (decorateLinks cfg ((a, none) :: rest)).1 = a :: (decorateLinks cfg rest).1
    ∧ (decorateLinks cfg ((a, none) :: rest)).2 = (decorateLinks cfg rest).2 := by
  refine ⟨rfl, rfl, rfl, rfl, rfl, rfl, ?_, ?_⟩ <;>
    simp [decorateLinks, decorateLink]

end Xwalk
